import Mathlib

/-!
Verification of the feature-tracking core in
`src/vins_estimator/src/featureTracker/feature_tracker.cpp`.

The embedding below translates the relevant C++ functions into Lean.
Floating-point pixel coordinates (`cv::Point2f`, `float`) are modelled as
exact rationals `ℚ`; `int` members such as `row`, `col`, ids and track
counts are modelled as `ℤ`.  Euclidean-distance comparisons
`distance(p, q) <= c` (which compute `sqrt(dx*dx + dy*dy)` in the source)
are modelled on squared distances: for `0 ≤ c`,
`sqrt(d) ≤ c ↔ d ≤ c*c`, so the boolean `dist2 p q ≤ c*c` is exactly the
source's comparison.
-/

namespace FeatureTracker

/-- A 2-D point with exact rational coordinates, modelling `cv::Point2f`. -/
structure Pt2 where
  x : ℚ
  y : ℚ
deriving DecidableEq, Repr

/-- Floor of a rational. -/
def ratFloor (q : ℚ) : ℤ := ⌊q⌋

/-- Model of OpenCV's `cvRound`: round to the nearest integer, ties to the
even integer (the SSE `cvtsd2si` round-to-nearest-even behaviour used by
`cvRound` on the targeted platforms). -/
def cvRound (q : ℚ) : ℤ :=
  let f := ratFloor q
  let r := q - (f : ℚ)
  if r < 1/2 then f
  else if 1/2 < r then f + 1
  else if f % 2 = 0 then f else f + 1

/-- `BORDER_SIZE` constant of `FeatureTracker::inBorder` (line 42). -/
def BORDER_SIZE : ℤ := 1

/-- Translation of `FeatureTracker::inBorder` (lines 40-46): the rounded
pixel position must lie in the 1-pixel inset interior of a `col × row`
image. -/
def inBorder (col row : ℤ) (pt : Pt2) : Bool :=
  let img_x := cvRound pt.x
  let img_y := cvRound pt.y
  decide (BORDER_SIZE ≤ img_x) && decide (img_x < col - BORDER_SIZE) &&
    decide (BORDER_SIZE ≤ img_y) && decide (img_y < row - BORDER_SIZE)

/-- Squared Euclidean distance between two points.  The source's
`distance` (lines 48-54) is `sqrt (dist2 p q)`. -/
def dist2 (p q : Pt2) : ℚ :=
  (p.x - q.x) * (p.x - q.x) + (p.y - q.y) * (p.y - q.y)

/-- The comparison `distance p q ≤ c` of the source, expressed without the
square root: for `0 ≤ c`, `sqrt d ≤ c ↔ d ≤ c * c`. -/
def distance_le (p q : Pt2) (c : ℚ) : Bool := decide (dist2 p q ≤ c * c)

/-- Translation of `reduceVector` (lines 56-72): in-place compaction that
keeps `v[i]` exactly when `status[i]` holds, preserving relative order.
The C++ loop reads `status[i]` for every `i < v.size()`; the structural
recursion below agrees with it whenever `status` is at least as long as
`v` (the only defined case in C++). -/
def reduceVector {α : Type} : List α → List Bool → List α
  | [], _ => []
  | _ :: _, [] => []
  | a :: v, s :: st => if s then a :: reduceVector v st else reduceVector v st

/-- The border-filter pass of `trackImage` (lines 500-502): for each index,
`status[i]` stays set only if the propagated point is inside the border. -/
def borderFilterStatus (col row : ℤ) (pts : List Pt2) (status : List Bool) :
    List Bool :=
  List.zipWith (fun p s => s && inBorder col row p) pts status

/-- One row of the `cnt_pts_id` working list built by
`FeatureTracker::setMask` (lines 182-185): the track count, the current
pixel position and the id of one track. -/
structure Track where
  cnt : ℤ
  pt : Pt2
  id : ℤ
deriving DecidableEq, Repr

/-- Squared distance between the integer pixels holding two points.
`cv::circle` and `cv::Mat::at` both receive the `Point2f` through the
rounding `Point2f → Point` conversion, so mask geometry happens on rounded
coordinates. -/
def pixDist2 (p q : Pt2) : ℤ :=
  (cvRound p.x - cvRound q.x) ^ 2 + (cvRound p.y - cvRound q.y) ^ 2

/-- Whether the mask pixel under `p` has been claimed by one of the
already accepted tracks.  The filled circle
`cv::circle(mask, c, MIN_DIST, 0, -1)` stamped for each accepted track is
modelled as the exact Euclidean disk of radius `minDist` around the
rounded centre, so `mask.at<uchar>(p) == 255` is the negation of this
predicate. -/
def maskClaimed (minDist : ℤ) (accepted : List Track) (p : Pt2) : Bool :=
  accepted.any (fun t => decide (pixDist2 t.pt p ≤ minDist ^ 2))

/-- One iteration of the acceptance loop of `setMask` (lines 196-205):
retain the visited track when its pixel is unclaimed, then (implicitly,
through `maskClaimed` over the accumulated list) stamp its disk. -/
def setMaskStep (minDist : ℤ) (acc : List Track) (t : Track) : List Track :=
  if maskClaimed minDist acc t.pt then acc else acc ++ [t]

/-- The acceptance loop of `setMask` run over a visit order `visit` of the
current tracks: rebuilds `cur_pts`/`ids`/`track_cnt` (as `Track` rows) by
greedy spatial exclusion. -/
def setMaskSelect (minDist : ℤ) (visit : List Track) : List Track :=
  visit.foldl (setMaskStep minDist) []

/-- The postcondition that `std::sort` with comparator
`a.first > b.first` (line 187-190) guarantees for the visit order: track
counts are non-increasing along the list.  `std::sort` promises nothing
about the relative order of elements with equal `cnt`. -/
def sortedByCntDesc (l : List Track) : Prop :=
  l.Pairwise (fun a b => b.cnt ≤ a.cnt)

instance (l : List Track) : Decidable (sortedByCntDesc l) := by
  unfold sortedByCntDesc; infer_instance

/-- Stable insertion into a list that is sorted by `cnt` descending: the
inserted element goes after every element with a `cnt` that is at least
as large. -/
def insertByCnt (t : Track) : List Track → List Track
  | [] => [t]
  | b :: bs => if b.cnt ≤ t.cnt then t :: b :: bs else b :: insertByCnt t bs

/-- The stable descending sort by `cnt` that the specification attributes
to `setMask` (it preserves the original relative order of tracks with
equal `cnt`); the source instead calls the unstable `std::sort`. -/
def stableSortByCnt : List Track → List Track
  | [] => []
  | a :: as => insertByCnt a (stableSortByCnt as)

/-- The forward-backward verification loop of `trackImage`
(lines 277-285, identically 361-369): the new status is set exactly when
the forward status, the reverse status, and the half-pixel round-trip
test all hold. -/
def flowBackStatus : List Bool → List Bool → List Pt2 → List Pt2 → List Bool
  | s :: ss, r :: rs, p :: ps, q :: qs =>
      (s && r && distance_le p q (1/2)) :: flowBackStatus ss rs ps qs
  | _, _, _, _ => []

/-- Result of one flow-backend invocation: the found points and the
per-point success flags. -/
structure FlowResult where
  pts : List Pt2
  status : List Bool
deriving DecidableEq, Repr

/-- Which flow-backend invocations `trackImage` makes while propagating,
in order.  `fastSeeded` is the `calcOpticalFlowPyrLK` call with
`maxLevel = 1` seeded by `predict_pts` through `OPTFLOW_USE_INITIAL_FLOW`
(lines 254-256); `fullPyramid` is the call with `maxLevel = 3` and no
seed (lines 265, 268). -/
inductive FlowCall where
  | fastSeeded
  | fullPyramid
deriving DecidableEq, Repr

/-- The success counter of lines 258-263. -/
def succCount (status : List Bool) : ℕ := (status.filter (fun b => b)).length

/-- The prediction-seeded dispatch of `trackImage` (lines 252-268),
with the two backend invocations abstracted as oracles `fast` and
`full`: with a staged prediction the fast seeded pass runs first and the
full pyramidal pass replaces its results exactly when fewer than 10
points succeeded; without a prediction only the full pass runs.  Returns
the adopted result together with the trace of backend calls. -/
def propagateFlow (hasPrediction : Bool) (fast full : FlowResult) :
    FlowResult × List FlowCall :=
  if hasPrediction then
    if succCount fast.status < 10 then
      (full, [FlowCall.fastSeeded, FlowCall.fullPyramid])
    else (fast, [FlowCall.fastSeeded])
  else (full, [FlowCall.fullPyramid])

/-- Translation of `FeatureTracker::ptsVelocity` (lines 924-962),
normalized-position velocities by id lookup.  `dt` is
`cur_time - prev_time`; `curPtsLen` is the size of the *member* vector
`cur_pts` (which the empty-map branch of the source iterates over, line
956, rather than the `pts` argument); `prev_id_pts` models the
`std::map<int, cv::Point2f>` (only `find` and `empty` are used, so an
association list with first-match lookup is a faithful view).  The filled
loop iterates `i < pts.size()` reading `ids[i]`, which is defined only
when `ids` is at least as long as `pts`; the zip below agrees with it in
that case. -/
def ptsVelocity (dt : ℚ) (curPtsLen : ℕ) (ids : List ℤ) (pts : List Pt2)
    (prev_id_pts : List (ℤ × Pt2)) : List Pt2 :=
  if !prev_id_pts.isEmpty then
    (ids.zip pts).map (fun ip =>
      match prev_id_pts.lookup ip.1 with
      | some prev => ⟨(ip.2.x - prev.x) / dt, (ip.2.y - prev.y) / dt⟩
      | none => ⟨0, 0⟩)
  else
    List.replicate curPtsLen ⟨0, 0⟩

/-- The `cur_id_pts` map rebuilt at the top of `ptsVelocity`
(lines 928-932).  `std::map::insert` keeps the first inserted value for a
duplicated key, which matches first-match `lookup` on the zipped list. -/
def buildIdPtsMap (ids : List ℤ) (pts : List Pt2) : List (ℤ × Pt2) :=
  ids.zip pts

/-- The per-track parallel vectors that `FeatureTracker::removeOutliers`
compacts (lines 1061-1063): between two `trackImage` calls these are the
live Track Table (`cur_pts` has already been rolled into `prev_pts`,
line 771). -/
structure OutlierState where
  prev_pts : List Pt2
  ids : List ℤ
  track_cnt : List ℤ
deriving DecidableEq, Repr

/-- Translation of `FeatureTracker::removeOutliers` (lines 1048-1064):
build a status vector over `ids` marking ids found in the removal set,
then compact all three parallel vectors with it. -/
def removeOutliers (removePtsIds : List ℤ) (s : OutlierState) : OutlierState :=
  let status := s.ids.map (fun i => !decide (i ∈ removePtsIds))
  { prev_pts := reduceVector s.prev_pts status
    ids := reduceVector s.ids status
    track_cnt := reduceVector s.track_cnt status }

/-- One observation row `[x, y, z, p_u, p_v, velocity_x, velocity_y]` of
the feature report (lines 797-798). -/
structure Obs7 where
  x : ℚ
  y : ℚ
  z : ℚ
  pu : ℚ
  pv : ℚ
  vx : ℚ
  vy : ℚ
deriving DecidableEq, Repr

/-- The report-assembly loop for one camera (lines 782-800 for camera 0,
804-822 for camera 1): index `i` runs over the id vector and reads the
parallel vectors at `i`.  Out-of-range reads (undefined in C++) are
modelled with the default `⟨0, 0⟩`. -/
def reportEntries (camId : ℕ) (ids : List ℤ) (un pts vel : List Pt2) :
    List (ℤ × ℕ × Obs7) :=
  (List.range ids.length).map (fun i =>
    (ids.getD i 0, camId,
      { x := (un.getD i ⟨0, 0⟩).x, y := (un.getD i ⟨0, 0⟩).y, z := 1
        pu := (pts.getD i ⟨0, 0⟩).x, pv := (pts.getD i ⟨0, 0⟩).y
        vx := (vel.getD i ⟨0, 0⟩).x, vy := (vel.getD i ⟨0, 0⟩).y }))

/-- The feature report returned by `trackImage` (lines 781-826), viewed
as the ordered list of `(feature_id, camera_id, observation)` insertions:
all camera-0 rows, then (in stereo mode) all camera-1 rows. -/
def assembleReport (ids : List ℤ) (un pts vel : List Pt2) (stereoOn : Bool)
    (ids_right : List ℤ) (unR ptsR velR : List Pt2) : List (ℤ × ℕ × Obs7) :=
  reportEntries 0 ids un pts vel ++
    (if stereoOn then reportEntries 1 ids_right unR ptsR velR else [])

/-- The tracker members read or written by the stereo block of
`trackImage` (lines 672-766). -/
structure LRState where
  ids : List ℤ
  cur_pts : List Pt2
  track_cnt : List ℤ
  cur_un_pts : List Pt2
  pts_velocity : List Pt2
  ids_right : List ℤ
  cur_right_pts : List Pt2
  cur_un_right_pts : List Pt2
  right_pts_velocity : List Pt2
deriving DecidableEq, Repr

/-- Translation of the stereo block of `trackImage` (lines 672-764): the
right-camera vectors are cleared, and if any left points exist the flow
backend (oracle result `flowPts`/`status`, already including the optional
forward-backward gate) is compacted into `ids_right`/`cur_right_pts`;
undistortion is the camera-model oracle `lift1`; velocities come from
`ptsVelocity`.  The `reduceVector` calls on the left-camera vectors are
commented out in the source (lines 754-760), so the left state is
untouched. -/
def stereoStage (s : LRState) (flowPts : List Pt2) (status : List Bool)
    (lift1 : Pt2 → Pt2) (dt : ℚ) (prevRightMap : List (ℤ × Pt2)) : LRState :=
  let s0 := { s with ids_right := ([] : List ℤ), cur_right_pts := ([] : List Pt2)
                     cur_un_right_pts := ([] : List Pt2)
                     right_pts_velocity := ([] : List Pt2) }
  if s.cur_pts.isEmpty then s0
  else
    let cur_right_pts := reduceVector flowPts status
    let ids_right := reduceVector s.ids status
    let cur_un_right_pts := cur_right_pts.map lift1
    let right_pts_velocity :=
      ptsVelocity dt s.cur_pts.length ids_right cur_un_right_pts prevRightMap
    { s0 with ids_right := ids_right, cur_right_pts := cur_right_pts
              cur_un_right_pts := cur_un_right_pts
              right_pts_velocity := right_pts_velocity }

/-- The id-relevant part of a pipeline instance's state: the live id
vector `ids` and the id counter `n_id` (initialised to `0` in the
constructor, lines 169-175). -/
structure TrackerState where
  ids : List ℤ
  n_id : ℤ
deriving DecidableEq, Repr

/-- Every mutation of `ids`/`n_id` performed by the source, as a step
relation:
* `reduce` — any `reduceVector(ids, status)` compaction (border filter and
  flow-status compaction in `trackImage`, `rejectWithF`,
  `removeOutliers`);
* `mask` — `setMask` rebuilds `ids` as the greedy selection over some
  `std::sort`-permuted order `v` of rows carrying the current ids;
* `add` — `addPoints` (lines 208-216) pushes one fresh id `n_id++` per
  element of `n_pts`.
No other code in the source writes `ids` or `n_id`. -/
inductive Step : TrackerState → TrackerState → Prop where
  | reduce (s : TrackerState) (status : List Bool) :
      Step s ⟨reduceVector s.ids status, s.n_id⟩
  | mask (s : TrackerState) (minDist : ℤ) (l v : List Track)
      (hl : l.map Track.id = s.ids) (hv : v.Perm l) :
      Step s ⟨(setMaskSelect minDist v).map Track.id, s.n_id⟩
  | add (s : TrackerState) (n_pts : List Pt2) :
      Step s ⟨s.ids ++
          (List.range n_pts.length).map (fun j : ℕ => s.n_id + (j : ℤ)),
        s.n_id + (n_pts.length : ℤ)⟩

/-- States of one pipeline instance reachable from construction
(`FeatureTracker::FeatureTracker`, lines 169-175: empty table, `n_id = 0`)
by the steps above. -/
inductive Reachable : TrackerState → Prop where
  | init : Reachable ⟨[], 0⟩
  | step {s t : TrackerState} : Reachable s → Step s t → Reachable t

/-- The arms of the temporal-flow dispatch chain of `trackImage`:
`if(!USE_GPU_ACC_FLOW) … else if (USE_GPU_ACC_FLOW) … else if (USE_VPI) …`
(lines 247, 289, 373).  `unreachedDefault` stands for falling through the
whole chain. -/
inductive FlowArmKind where
  | cpu
  | gpuAcc
  | vpi
  | unreachedDefault
deriving DecidableEq, Repr

/-- The arm taken by the temporal-flow dispatch chain as a function of the
two flags it tests. -/
def selectFlowArm (use_gpu_acc_flow use_vpi : Bool) : FlowArmKind :=
  if !use_gpu_acc_flow then FlowArmKind.cpu
  else if use_gpu_acc_flow then FlowArmKind.gpuAcc
  else if use_vpi then FlowArmKind.vpi
  else FlowArmKind.unreachedDefault

/-- The arms of the corner-detection dispatch chain of `trackImage`:
`if(!USE_GPU) … else if (USE_GPU) … else if(USE_VPI) …`
(lines 526, 547, 576). -/
inductive DetectArmKind where
  | cpu
  | gpu
  | vpi
  | unreachedDefault
deriving DecidableEq, Repr

/-- The arm taken by the corner-detection dispatch chain as a function of
the two flags it tests. -/
def selectDetectArm (use_gpu use_vpi : Bool) : DetectArmKind :=
  if !use_gpu then DetectArmKind.cpu
  else if use_gpu then DetectArmKind.gpu
  else if use_vpi then DetectArmKind.vpi
  else DetectArmKind.unreachedDefault

/-- Both backend choices `trackImage` makes, as a function of the three
configuration flags they read; `USE_VPI` is read nowhere else in the
translation unit. -/
def trackImageArms (use_gpu_acc_flow use_gpu use_vpi : Bool) :
    FlowArmKind × DetectArmKind :=
  (selectFlowArm use_gpu_acc_flow use_vpi, selectDetectArm use_gpu use_vpi)

/-! ### Generic facts about `reduceVector` -/

theorem reduceVector_sublist {α : Type} :
    ∀ (v : List α) (st : List Bool), List.Sublist (reduceVector v st) v := by
  intro v
  induction v with
  | nil => intro st; simp [reduceVector]
  | cons a as ih =>
    intro st
    cases st with
    | nil => simp [reduceVector]
    | cons s ss =>
      by_cases hs : s = true
      · simpa [reduceVector, hs] using (ih ss).cons₂ a
      · simp only [Bool.not_eq_true] at hs
        simpa [reduceVector, hs] using (ih ss).cons a

theorem reduceVector_subset {α : Type} (v : List α) (st : List Bool) :
    ∀ a ∈ reduceVector v st, a ∈ v :=
  fun _ ha => (reduceVector_sublist v st).subset ha

theorem reduceVector_length_le {α : Type} (v : List α) (st : List Bool) :
    (reduceVector v st).length ≤ v.length :=
  (reduceVector_sublist v st).length_le

/-! ### C1: the border invariant after propagation -/

theorem inBorder_iff (col row : ℤ) (p : Pt2) :
    inBorder col row p = true ↔
      1 ≤ cvRound p.x ∧ cvRound p.x < col - 1 ∧
        1 ≤ cvRound p.y ∧ cvRound p.y < row - 1 := by
  simp [inBorder, BORDER_SIZE, and_assoc]

theorem mem_reduce_borderFilter {col row : ℤ} :
    ∀ {pts : List Pt2} {status : List Bool} {p : Pt2},
      p ∈ reduceVector pts (borderFilterStatus col row pts status) →
      inBorder col row p = true := by
  intro pts
  induction pts with
  | nil =>
    intro status p h
    simp [reduceVector, borderFilterStatus] at h
  | cons a as ih =>
    intro status p h
    cases status with
    | nil => simp [borderFilterStatus, reduceVector] at h
    | cons s ss =>
      simp only [borderFilterStatus, List.zipWith_cons_cons] at h
      by_cases hc : (s && inBorder col row a) = true
      · rw [reduceVector, if_pos hc] at h
        rcases List.mem_cons.mp h with hpa | hmem
        · subst hpa
          exact (Bool.and_eq_true _ _).mp hc |>.2
        · exact ih hmem
      · rw [reduceVector, if_neg hc] at h
        exact ih h

/-- C1 (amended): after the propagation stage of `trackImage`, every track
surviving the border filter has a pixel position whose *rounded*
coordinates satisfy `1 ≤ round x < width - 1` and
`1 ≤ round y < height - 1` (the source tests `cvRound`, not the raw
sub-pixel position), and only tracks passing this rounded test are
kept. -/
theorem trackImage_border_invariant (col row : ℤ) (pts : List Pt2)
    (status : List Bool) (p : Pt2)
    (hp : p ∈ reduceVector pts (borderFilterStatus col row pts status)) :
    1 ≤ cvRound p.x ∧ cvRound p.x < col - 1 ∧
      1 ≤ cvRound p.y ∧ cvRound p.y < row - 1 :=
  (inBorder_iff col row p).mp (mem_reduce_borderFilter hp)

/-- Witness for `trackImage_border_invariant` at a concrete survivor. -/
theorem trackImage_border_invariant_witness :
    1 ≤ cvRound (Pt2.mk 5 5).x ∧ cvRound (Pt2.mk 5 5).x < 10 - 1 ∧
      1 ≤ cvRound (Pt2.mk 5 5).y ∧ cvRound (Pt2.mk 5 5).y < 10 - 1 :=
  trackImage_border_invariant 10 10 [⟨5, 5⟩] [true] ⟨5, 5⟩ (by
    norm_num [reduceVector, borderFilterStatus, inBorder, cvRound, ratFloor,
      BORDER_SIZE])

/-- C1 (counterexample to the claim as stated): in a 10×10 image the point
`(0.6, 5)` survives the border filter (its rounded position is `(1, 5)`,
inside the inset border) although its pixel position violates `1 ≤ x`. -/
theorem trackImage_border_counterexample :
    (⟨6/10, 5⟩ : Pt2) ∈ reduceVector [(⟨6/10, 5⟩ : Pt2)]
        (borderFilterStatus 10 10 [(⟨6/10, 5⟩ : Pt2)] [true]) ∧
      ¬ (1 ≤ (Pt2.mk (6/10) 5).x) := by
  constructor
  · norm_num [reduceVector, borderFilterStatus, inBorder, cvRound, ratFloor,
      BORDER_SIZE]
  · norm_num

/-! ### C2: the coverage-mask selector -/

theorem foldl_setMaskStep_sublist (minDist : ℤ) :
    ∀ (v acc : List Track),
      List.Sublist (v.foldl (setMaskStep minDist) acc) (acc ++ v) := by
  intro v
  induction v with
  | nil => intro acc; simp
  | cons t ts ih =>
    intro acc
    refine (ih (setMaskStep minDist acc t)).trans ?_
    unfold setMaskStep
    by_cases hc : maskClaimed minDist acc t.pt = true
    · rw [if_pos hc]
      exact ((List.sublist_cons_self t ts).append_left acc)
    · rw [if_neg hc]
      simp

theorem setMaskSelect_sublist (minDist : ℤ) (v : List Track) :
    List.Sublist (setMaskSelect minDist v) v := by
  simpa [setMaskSelect] using foldl_setMaskStep_sublist minDist v []

theorem setMaskStep_eq (minDist : ℤ) (acc : List Track) (t : Track) :
    setMaskStep minDist acc t =
      if maskClaimed minDist acc t.pt then acc else acc ++ [t] := rfl

theorem setMaskSelect_snoc (minDist : ℤ) (xs : List Track) (t : Track) :
    setMaskSelect minDist (xs ++ [t]) =
      setMaskSelect minDist xs ++
        (if maskClaimed minDist (setMaskSelect minDist xs) t.pt
         then [] else [t]) := by
  unfold setMaskSelect
  rw [List.foldl_append, List.foldl_cons, List.foldl_nil, setMaskStep_eq]
  by_cases hc :
      maskClaimed minDist (List.foldl (setMaskStep minDist) [] xs) t.pt = true
  · rw [if_pos hc, if_pos hc, List.append_nil]
  · rw [if_neg hc, if_neg hc]

/-- C2 (amended): walking any visit order `v` that satisfies the
`std::sort` contract (a permutation of the current tracks, non-increasing
in track count — the relative order of equal counts is *unspecified*, not
the original order), the selector retains the `i`-th visited track exactly
when its pixel is still unclaimed by the previously accepted tracks, and
then stamps its `MIN_DIST` disk. -/
theorem setMask_greedy_accept (minDist : ℤ) (l v : List Track)
    (hv : v.Perm l) (hs : sortedByCntDesc v) (i : ℕ) (h : i < v.length) :
    setMaskSelect minDist (v.take (i + 1)) =
      setMaskSelect minDist (v.take i) ++
        (if maskClaimed minDist (setMaskSelect minDist (v.take i))
              (v.get ⟨i, h⟩).pt
         then [] else [v.get ⟨i, h⟩]) := by
  have htake : v.take (i + 1) = v.take i ++ [v.get ⟨i, h⟩] := by
    rw [List.take_succ]
    simp [List.getElem?_eq_getElem h, List.get_eq_getElem]
  rw [htake, setMaskSelect_snoc]

/-- Witness for `setMask_greedy_accept` on a single-track list. -/
theorem setMask_greedy_accept_witness :
    setMaskSelect 3 (([⟨1, ⟨5, 5⟩, 0⟩] : List Track).take (0 + 1)) =
      setMaskSelect 3 (([⟨1, ⟨5, 5⟩, 0⟩] : List Track).take 0) ++
        (if maskClaimed 3
              (setMaskSelect 3 (([⟨1, ⟨5, 5⟩, 0⟩] : List Track).take 0))
              ((([⟨1, ⟨5, 5⟩, 0⟩] : List Track).get ⟨0, by norm_num⟩).pt)
         then []
         else [(([⟨1, ⟨5, 5⟩, 0⟩] : List Track).get ⟨0, by norm_num⟩)]) :=
  setMask_greedy_accept 3 [⟨1, ⟨5, 5⟩, 0⟩] [⟨1, ⟨5, 5⟩, 0⟩]
    (List.Perm.refl _) (by simp [sortedByCntDesc]) 0 (by norm_num)

/-- C2 (counterexample to the claim as stated): `setMask` sorts with
`std::sort`, whose order among equal track counts is unspecified.  For two
age-1 tracks at pixels `(5,5)` and `(6,5)` with `MIN_DIST = 3`, the
reversed visit order also satisfies the sort contract, is not the
tie-stable order, and makes the selector keep the *other* track — so
"original relative order is preserved among equal ages" is not a property
of the code. -/
theorem setMask_stability_counterexample :
    ([⟨1, ⟨6, 5⟩, 1⟩, ⟨1, ⟨5, 5⟩, 0⟩] : List Track).Perm
        [⟨1, ⟨5, 5⟩, 0⟩, ⟨1, ⟨6, 5⟩, 1⟩] ∧
      sortedByCntDesc [⟨1, ⟨6, 5⟩, 1⟩, ⟨1, ⟨5, 5⟩, 0⟩] ∧
      ([⟨1, ⟨6, 5⟩, 1⟩, ⟨1, ⟨5, 5⟩, 0⟩] : List Track) ≠
        stableSortByCnt [⟨1, ⟨5, 5⟩, 0⟩, ⟨1, ⟨6, 5⟩, 1⟩] ∧
      setMaskSelect 3 [⟨1, ⟨6, 5⟩, 1⟩, ⟨1, ⟨5, 5⟩, 0⟩] ≠
        setMaskSelect 3 (stableSortByCnt [⟨1, ⟨5, 5⟩, 0⟩, ⟨1, ⟨6, 5⟩, 1⟩]) := by
  refine ⟨List.Perm.swap _ _ _, by simp [sortedByCntDesc], ?_, ?_⟩
  · norm_num [stableSortByCnt, insertByCnt]
  · norm_num [stableSortByCnt, insertByCnt, setMaskSelect, setMaskStep,
      maskClaimed, pixDist2, cvRound, ratFloor]

/-! ### C3: the forward-backward consistency gate -/

/-- C3: with forward-backward verification enabled, the status written for
index `i` is set exactly when the forward pass succeeded, the backward
pass succeeded, and the backward-mapped point lies within `0.5` pixels of
the original previous-frame point (`dist2 ≤ (1/2)·(1/2)` is
`distance ≤ 0.5` on squared distances); in particular a point whose
backward-mapped position is `1.0` pixel away is rejected. -/
theorem flowBack_accept_iff :
    (∀ (ss rs : List Bool) (ps qs : List Pt2) (i : ℕ),
        i < ss.length → i < rs.length → i < ps.length → i < qs.length →
        ((flowBackStatus ss rs ps qs).getD i false = true ↔
          (ss.getD i false = true ∧ rs.getD i false = true ∧
            dist2 (ps.getD i ⟨0, 0⟩) (qs.getD i ⟨0, 0⟩) ≤ (1/2) * (1/2)))) ∧
      flowBackStatus [true] [true] [⟨0, 0⟩] [⟨1, 0⟩] = [false] := by
  constructor
  · intro ss
    induction ss with
    | nil =>
      intro rs ps qs i h1
      simp at h1
    | cons s ss ih =>
      intro rs ps qs i h1 h2 h3 h4
      cases rs with
      | nil => simp at h2
      | cons r rs =>
        cases ps with
        | nil => simp at h3
        | cons p ps =>
          cases qs with
          | nil => simp at h4
          | cons q qs =>
            cases i with
            | zero =>
              simp [flowBackStatus, distance_le, and_assoc]
            | succ n =>
              simp only [flowBackStatus, List.getD_cons_succ]
              exact ih rs ps qs n (by simpa using h1) (by simpa using h2)
                (by simpa using h3) (by simpa using h4)
  · norm_num [flowBackStatus, distance_le, dist2]

/-- Witness for `flowBack_accept_iff` at index 0 of singleton inputs. -/
theorem flowBack_accept_iff_witness :
    (flowBackStatus [true] [true] [⟨0, 0⟩] [⟨0, 0⟩]).getD 0 false = true ↔
      (([true] : List Bool).getD 0 false = true ∧
        ([true] : List Bool).getD 0 false = true ∧
        dist2 (([(⟨0, 0⟩ : Pt2)]).getD 0 ⟨0, 0⟩)
          (([(⟨0, 0⟩ : Pt2)]).getD 0 ⟨0, 0⟩) ≤ (1/2) * (1/2)) :=
  flowBack_accept_iff.1 [true] [true] [⟨0, 0⟩] [⟨0, 0⟩] 0
    (by norm_num) (by norm_num) (by norm_num) (by norm_num)

/-! ### C4: external outlier feedback -/

theorem reduceVector_self_map (f : ℤ → Bool) :
    ∀ (ids : List ℤ), reduceVector ids (ids.map f) = ids.filter f := by
  intro ids
  induction ids with
  | nil => simp [reduceVector]
  | cons i is ih =>
    by_cases hf : f i = true
    · simp [reduceVector, List.filter_cons, hf, ih]
    · simp only [Bool.not_eq_true] at hf
      simp [reduceVector, List.filter_cons, hf, ih]

theorem reduceVector_zip_map {α : Type} (f : ℤ → Bool) :
    ∀ (v : List α) (ids : List ℤ), v.length = ids.length →
      (reduceVector v (ids.map f)).zip (reduceVector ids (ids.map f)) =
        (v.zip ids).filter (fun ai => f ai.2) := by
  intro v
  induction v with
  | nil =>
    intro ids hlen
    cases ids with
    | nil => simp [reduceVector]
    | cons i is => simp at hlen
  | cons a as ih =>
    intro ids hlen
    cases ids with
    | nil => simp at hlen
    | cons i is =>
      simp only [List.length_cons, Nat.succ.injEq] at hlen
      by_cases hf : f i = true
      · simp [reduceVector, List.filter_cons, hf, ih is hlen]
      · simp only [Bool.not_eq_true] at hf
        simp [reduceVector, List.filter_cons, hf, ih is hlen]

theorem reduceVector_of_true {α : Type} (f : ℤ → Bool) :
    ∀ (v : List α) (ids : List ℤ), v.length = ids.length →
      (∀ i ∈ ids, f i = true) → reduceVector v (ids.map f) = v := by
  intro v
  induction v with
  | nil => intro ids _ _; simp [reduceVector]
  | cons a as ih =>
    intro ids hlen htrue
    cases ids with
    | nil => simp at hlen
    | cons i is =>
      simp only [List.length_cons, Nat.succ.injEq] at hlen
      have hi : f i = true := htrue i (List.mem_cons_self i is)
      simp [reduceVector, hi,
        ih is hlen (fun j hj => htrue j (List.mem_cons_of_mem i hj))]

/-- C4: `removeOutliers` keeps exactly the tracks whose id is not in the
removal set, compacting `prev_pts`, `ids` and `track_cnt` in lockstep
(index alignment and relative order preserved); an id absent from the
Track Table has no effect, and a removal set disjoint from the live ids
leaves the state unchanged. -/
theorem removeOutliers_spec (removePtsIds : List ℤ) (s : OutlierState)
    (h1 : s.prev_pts.length = s.ids.length)
    (h2 : s.track_cnt.length = s.ids.length) :
    (removeOutliers removePtsIds s).ids =
        s.ids.filter (fun i => !decide (i ∈ removePtsIds)) ∧
      ((removeOutliers removePtsIds s).prev_pts.zip
          (removeOutliers removePtsIds s).ids =
        (s.prev_pts.zip s.ids).filter
          (fun ai => !decide (ai.2 ∈ removePtsIds))) ∧
      ((removeOutliers removePtsIds s).track_cnt.zip
          (removeOutliers removePtsIds s).ids =
        (s.track_cnt.zip s.ids).filter
          (fun ai => !decide (ai.2 ∈ removePtsIds))) ∧
      ((∀ i ∈ s.ids, i ∉ removePtsIds) → removeOutliers removePtsIds s = s) := by
  refine ⟨?_, ?_, ?_, ?_⟩
  · exact reduceVector_self_map _ s.ids
  · exact reduceVector_zip_map _ s.prev_pts s.ids h1
  · exact reduceVector_zip_map _ s.track_cnt s.ids h2
  · intro hdisj
    have htrue : ∀ i ∈ s.ids, (fun i => !decide (i ∈ removePtsIds)) i = true := by
      intro i hi
      simp [hdisj i hi]
    cases s with
    | mk prev_pts ids track_cnt =>
      simp only [removeOutliers, OutlierState.mk.injEq]
      exact ⟨reduceVector_of_true _ prev_pts ids h1 htrue,
        reduceVector_of_true _ ids ids rfl htrue,
        reduceVector_of_true _ track_cnt ids h2 htrue⟩

/-- Witness for `removeOutliers_spec`: one matching id is deleted from all
three vectors, the other survives. -/
theorem removeOutliers_spec_witness :
    (removeOutliers [7] ⟨[⟨1, 1⟩, ⟨2, 2⟩], [7, 9], [3, 4]⟩).ids =
      ([7, 9] : List ℤ).filter (fun i => !decide (i ∈ ([7] : List ℤ))) :=
  (removeOutliers_spec [7] ⟨[⟨1, 1⟩, ⟨2, 2⟩], [7, 9], [3, 4]⟩ rfl rfl).1

/-! ### C5 and C9: the velocity estimator -/

theorem zip_map_getD {α β γ : Type} (f : α × β → γ) (da : α) (db : β) (d : γ) :
    ∀ (as : List α) (bs : List β) (i : ℕ), as.length = bs.length →
      i < bs.length →
      ((as.zip bs).map f).getD i d = f (as.getD i da, bs.getD i db) := by
  intro as
  induction as with
  | nil =>
    intro bs i hlen hi
    cases bs with
    | nil => simp at hi
    | cons b bs => simp at hlen
  | cons a as ih =>
    intro bs i hlen hi
    cases bs with
    | nil => simp at hi
    | cons b bs =>
      simp only [List.length_cons, Nat.succ.injEq] at hlen
      cases i with
      | zero => simp
      | succ n =>
        simp only [List.zip_cons_cons, List.map_cons, List.getD_cons_succ]
        exact ih bs n hlen (by simpa using hi)

/-- C5: `ptsVelocity` assigns to index `i` the finite difference
`(current − previous) / dt` when `ids[i]` is found in the previous-frame
map, and `(0,0)` when it is absent (so a freshly created id reports zero
velocity); when the previous map is empty every returned entry is
`(0,0)`. -/
theorem ptsVelocity_spec :
    (∀ (dt : ℚ) (curPtsLen : ℕ) (ids : List ℤ) (pts : List Pt2)
        (prev : List (ℤ × Pt2)) (i : ℕ),
        ids.length = pts.length → i < pts.length → prev ≠ [] →
        (ptsVelocity dt curPtsLen ids pts prev).getD i ⟨0, 0⟩ =
          (match prev.lookup (ids.getD i 0) with
           | some q =>
              (⟨((pts.getD i ⟨0, 0⟩).x - q.x) / dt,
                ((pts.getD i ⟨0, 0⟩).y - q.y) / dt⟩ : Pt2)
           | none => ⟨0, 0⟩)) ∧
      (∀ (dt : ℚ) (curPtsLen : ℕ) (ids : List ℤ) (pts : List Pt2),
        ptsVelocity dt curPtsLen ids pts [] =
          List.replicate curPtsLen ⟨0, 0⟩) := by
  constructor
  · intro dt curPtsLen ids pts prev i hlen hi hne
    have hemp : prev.isEmpty = false := by
      cases prev with
      | nil => exact absurd rfl hne
      | cons a l => rfl
    rw [ptsVelocity, hemp]
    simp only [Bool.not_false, if_pos]
    exact zip_map_getD _ (0 : ℤ) (⟨0, 0⟩ : Pt2) (⟨0, 0⟩ : Pt2) ids pts i hlen hi
  · intro dt curPtsLen ids pts
    rfl

/-- Witness for `ptsVelocity_spec`: a track found in the previous map gets
the finite-difference velocity. -/
theorem ptsVelocity_spec_witness :
    (ptsVelocity (1/10) 3 [5] [⟨2, 2⟩] [(5, ⟨1, 2⟩)]).getD 0 ⟨0, 0⟩ =
      (match ([(5, (⟨1, 2⟩ : Pt2))] : List (ℤ × Pt2)).lookup
          (([5] : List ℤ).getD 0 0) with
       | some q =>
          (⟨((([(⟨2, 2⟩ : Pt2)]).getD 0 ⟨0, 0⟩).x - q.x) / (1/10),
            ((([(⟨2, 2⟩ : Pt2)]).getD 0 ⟨0, 0⟩).y - q.y) / (1/10)⟩ : Pt2)
       | none => ⟨0, 0⟩) :=
  ptsVelocity_spec.1 (1/10) 3 [5] [⟨2, 2⟩] [(5, ⟨1, 2⟩)] 0 rfl
    (by norm_num) (by simp)

/-- C9: on a first stereo frame (`prev_un_right_pts_map` empty) the
velocity vector returned for the right camera has one `(0,0)` entry per
element of the *left* list `cur_pts` — not per element of its `pts`
argument — yet every index below `ids_right.length` is still in bounds,
because `ids_right` is a compaction of `ids` and `ids` is as long as
`cur_pts`. -/
theorem right_velocity_first_frame_safe (dt : ℚ) (ids : List ℤ)
    (status : List Bool) (ptsR : List Pt2) (curPtsLen : ℕ)
    (hlen : ids.length = curPtsLen) (i : ℕ)
    (hi : i < (reduceVector ids status).length) :
    ptsVelocity dt curPtsLen (reduceVector ids status) ptsR [] =
        List.replicate curPtsLen ⟨0, 0⟩ ∧
      (reduceVector ids status).length ≤ ids.length ∧
      i < (ptsVelocity dt curPtsLen (reduceVector ids status) ptsR []).length := by
  refine ⟨rfl, reduceVector_length_le ids status, ?_⟩
  have h1 : i < ids.length := lt_of_lt_of_le hi (reduceVector_length_le ids status)
  show i < (ptsVelocity dt curPtsLen (reduceVector ids status) ptsR []).length
  rw [show ptsVelocity dt curPtsLen (reduceVector ids status) ptsR [] =
      List.replicate curPtsLen ⟨0, 0⟩ from rfl]
  rw [List.length_replicate]
  omega

/-- Witness for `right_velocity_first_frame_safe` on a one-point first
stereo frame. -/
theorem right_velocity_first_frame_safe_witness :
    ptsVelocity 1 1 (reduceVector [5] [true]) [] [] =
        List.replicate 1 ⟨0, 0⟩ ∧
      (reduceVector ([5] : List ℤ) [true]).length ≤ ([5] : List ℤ).length ∧
      (0 : ℕ) < (ptsVelocity 1 1 (reduceVector [5] [true]) [] []).length :=
  right_velocity_first_frame_safe 1 [5] [true] [] 1 rfl 0 (by simp [reduceVector])

/-! ### C6: stereo correspondence is additive -/

/-- The feature ids observed by camera `c` in a report. -/
def reportIds (c : ℕ) (entries : List (ℤ × ℕ × Obs7)) : List ℤ :=
  (entries.filter (fun e => decide (e.2.1 = c))).map (fun e => e.1)

theorem reportIds_append (c : ℕ) (l1 l2 : List (ℤ × ℕ × Obs7)) :
    reportIds c (l1 ++ l2) = reportIds c l1 ++ reportIds c l2 := by
  simp [reportIds, List.filter_append]

theorem map_getD_range {α : Type} (d : α) :
    ∀ (l : List α), (List.range l.length).map (fun i => l.getD i d) = l := by
  intro l
  induction l with
  | nil => simp
  | cons a as ih =>
    rw [List.length_cons, List.range_succ_eq_map]
    simp only [List.map_cons, List.getD_cons_zero, List.map_map]
    rw [show ((fun i => (a :: as).getD i d) ∘ Nat.succ) =
        (fun i => as.getD i d) from rfl, ih]

theorem reportIds_reportEntries_self (c : ℕ) (ids : List ℤ)
    (un pts vel : List Pt2) :
    reportIds c (reportEntries c ids un pts vel) = ids := by
  unfold reportIds reportEntries
  rw [List.filter_map, List.map_map]
  simp only [Function.comp_def, decide_True]
  rw [List.filter_true]
  exact map_getD_range 0 ids

theorem reportIds_reportEntries_other (c c' : ℕ) (h : ¬ c = c')
    (ids : List ℤ) (un pts vel : List Pt2) :
    reportIds c' (reportEntries c ids un pts vel) = [] := by
  unfold reportIds reportEntries
  rw [List.filter_map, List.map_map]
  simp [Function.comp_def, h]

theorem reportIds_zero_assemble (ids : List ℤ) (un pts vel : List Pt2)
    (ids_right : List ℤ) (unR ptsR velR : List Pt2) :
    reportIds 0 (assembleReport ids un pts vel true ids_right unR ptsR velR) =
      ids := by
  unfold assembleReport
  rw [if_pos rfl, reportIds_append, reportIds_reportEntries_self,
    reportIds_reportEntries_other 1 0 (by omega), List.append_nil]

theorem reportIds_one_assemble (ids : List ℤ) (un pts vel : List Pt2)
    (ids_right : List ℤ) (unR ptsR velR : List Pt2) :
    reportIds 1 (assembleReport ids un pts vel true ids_right unR ptsR velR) =
      ids_right := by
  unfold assembleReport
  rw [if_pos rfl, reportIds_append, reportIds_reportEntries_self,
    reportIds_reportEntries_other 0 1 (by omega), List.nil_append]

/-- C6: the stereo stage never removes or modifies any left-camera track
datum — `ids`, `cur_pts`, `track_cnt`, `cur_un_pts` and `pts_velocity`
are returned unchanged — and in the assembled feature report the id set
of camera-1 observations is a subset of the camera-0 id set. -/
theorem stereoStage_additive (s : LRState) (flowPts : List Pt2)
    (status : List Bool) (lift1 : Pt2 → Pt2) (dt : ℚ)
    (prevRightMap : List (ℤ × Pt2)) :
    (stereoStage s flowPts status lift1 dt prevRightMap).ids = s.ids ∧
      (stereoStage s flowPts status lift1 dt prevRightMap).cur_pts = s.cur_pts ∧
      (stereoStage s flowPts status lift1 dt prevRightMap).track_cnt =
        s.track_cnt ∧
      (stereoStage s flowPts status lift1 dt prevRightMap).cur_un_pts =
        s.cur_un_pts ∧
      (stereoStage s flowPts status lift1 dt prevRightMap).pts_velocity =
        s.pts_velocity ∧
      (∀ idv ∈ reportIds 1 (assembleReport s.ids s.cur_un_pts s.cur_pts
            s.pts_velocity true
            (stereoStage s flowPts status lift1 dt prevRightMap).ids_right
            (stereoStage s flowPts status lift1 dt prevRightMap).cur_un_right_pts
            (stereoStage s flowPts status lift1 dt prevRightMap).cur_right_pts
            (stereoStage s flowPts status lift1 dt
              prevRightMap).right_pts_velocity),
        idv ∈ reportIds 0 (assembleReport s.ids s.cur_un_pts s.cur_pts
            s.pts_velocity true
            (stereoStage s flowPts status lift1 dt prevRightMap).ids_right
            (stereoStage s flowPts status lift1 dt prevRightMap).cur_un_right_pts
            (stereoStage s flowPts status lift1 dt prevRightMap).cur_right_pts
            (stereoStage s flowPts status lift1 dt
              prevRightMap).right_pts_velocity)) := by
  have hsub : ∀ idv ∈ (stereoStage s flowPts status lift1 dt
      prevRightMap).ids_right, idv ∈ s.ids := by
    intro idv hmem
    by_cases h : s.cur_pts.isEmpty
    · simp [stereoStage, h] at hmem
    · simp only [stereoStage, h, Bool.false_eq_true, if_false] at hmem
      exact reduceVector_subset s.ids status idv hmem
  refine ⟨?_, ?_, ?_, ?_, ?_, ?_⟩
  · by_cases h : s.cur_pts.isEmpty <;> simp [stereoStage, h]
  · by_cases h : s.cur_pts.isEmpty <;> simp [stereoStage, h]
  · by_cases h : s.cur_pts.isEmpty <;> simp [stereoStage, h]
  · by_cases h : s.cur_pts.isEmpty <;> simp [stereoStage, h]
  · by_cases h : s.cur_pts.isEmpty <;> simp [stereoStage, h]
  · intro idv hmem
    rw [reportIds_one_assemble] at hmem
    rw [reportIds_zero_assemble]
    exact hsub idv hmem

/-- Witness for `stereoStage_additive`: a concrete one-track state whose
stereo match succeeds; the right id is reported under camera 0 as well. -/
theorem stereoStage_additive_witness :
    (5 : ℤ) ∈ (⟨[5], [⟨2, 2⟩], [1], [⟨2, 2⟩], [⟨0, 0⟩], [], [], [], []⟩ :
      LRState).ids :=
  (stereoStage_additive ⟨[5], [⟨2, 2⟩], [1], [⟨2, 2⟩], [⟨0, 0⟩], [], [], [], []⟩
      [⟨3, 2⟩] [true] id 1 []).2.2.2.2.2 5 (by
    rw [reportIds_one_assemble]
    show (5 : ℤ) ∈ reduceVector [(5 : ℤ)] [true]
    simp [reduceVector])

/-! ### C7: the prediction-seeded fast pass and its fallback -/

/-- C7: with a staged prediction the fast seeded single-level pass runs
first, and the full multi-level pass runs — replacing the fast results —
exactly when strictly fewer than 10 points succeeded in the fast pass;
with at least 10 successes the fast results are kept and no full pass
runs; without a prediction only the full multi-level pass runs. -/
theorem propagateFlow_policy (hasPrediction : Bool) (fast full : FlowResult) :
    (hasPrediction = true → succCount fast.status < 10 →
      propagateFlow hasPrediction fast full =
        (full, [FlowCall.fastSeeded, FlowCall.fullPyramid])) ∧
      (hasPrediction = true → 10 ≤ succCount fast.status →
        propagateFlow hasPrediction fast full =
          (fast, [FlowCall.fastSeeded])) ∧
      (hasPrediction = false →
        propagateFlow hasPrediction fast full =
          (full, [FlowCall.fullPyramid])) := by
  refine ⟨?_, ?_, ?_⟩
  · intro hp hlt
    simp [propagateFlow, hp, hlt]
  · intro hp hge
    simp [propagateFlow, hp, Nat.not_lt.mpr hge]
  · intro hp
    simp [propagateFlow, hp]

/-- Witness for `propagateFlow_policy`: with no prediction staged, only
the full pyramidal search runs. -/
theorem propagateFlow_policy_witness :
    propagateFlow false ⟨[], []⟩ ⟨[⟨1, 1⟩], [true]⟩ =
      ((⟨[⟨1, 1⟩], [true]⟩ : FlowResult), [FlowCall.fullPyramid]) :=
  (propagateFlow_policy false ⟨[], []⟩ ⟨[⟨1, 1⟩], [true]⟩).2.2 rfl

/-! ### C10: the `USE_VPI` arms are dead code -/

/-- C10: in both dispatch chains of `trackImage` the first two arms test a
flag and its negation and are therefore exhaustive, so the `USE_VPI` arm
is never taken, and the chosen backends — hence the modelled pipeline
behaviour — are identical for any two values of `USE_VPI`. -/
theorem use_vpi_unreachable (use_gpu_acc_flow use_gpu use_vpi use_vpi2 : Bool) :
    selectFlowArm use_gpu_acc_flow use_vpi ≠ FlowArmKind.vpi ∧
      selectDetectArm use_gpu use_vpi ≠ DetectArmKind.vpi ∧
      trackImageArms use_gpu_acc_flow use_gpu use_vpi =
        trackImageArms use_gpu_acc_flow use_gpu use_vpi2 := by
  cases use_gpu_acc_flow <;> cases use_gpu <;> cases use_vpi <;>
    cases use_vpi2 <;>
      simp [selectFlowArm, selectDetectArm, trackImageArms]

/-- Witness for `use_vpi_unreachable` at `USE_VPI = true`. -/
theorem use_vpi_unreachable_witness :
    trackImageArms false false true = trackImageArms false false false :=
  (use_vpi_unreachable false false true false).2.2

/-! ### C8: id uniqueness and the monotone id counter -/

theorem step_n_id_mono (t u : TrackerState) (h : Step t u) : t.n_id ≤ u.n_id := by
  cases h with
  | reduce status => exact le_refl _
  | mask minDist l v hl hv => exact le_refl _
  | add ps =>
    show t.n_id ≤ t.n_id + (ps.length : ℤ)
    omega

theorem step_invariant (t u : TrackerState) (hstep : Step t u)
    (hnd : t.ids.Nodup) (hbd : ∀ i ∈ t.ids, i < t.n_id) :
    u.ids.Nodup ∧ ∀ i ∈ u.ids, i < u.n_id := by
  cases hstep with
  | reduce status =>
    refine ⟨hnd.sublist (reduceVector_sublist t.ids status), ?_⟩
    intro i hi
    exact hbd i (reduceVector_subset _ _ i hi)
  | mask minDist l v hl hv =>
    have hperm : (v.map Track.id).Perm t.ids := by
      rw [← hl]
      exact hv.map Track.id
    have hsub : List.Sublist ((setMaskSelect minDist v).map Track.id)
        (v.map Track.id) := (setMaskSelect_sublist minDist v).map Track.id
    refine ⟨(hperm.nodup_iff.mpr hnd).sublist hsub, ?_⟩
    intro i hi
    exact hbd i (hperm.subset (hsub.subset hi))
  | add ps =>
    constructor
    · refine List.Nodup.append hnd (List.Nodup.map ?_ (List.nodup_range _)) ?_
      · intro a b hab
        dsimp only at hab
        omega
      · intro a ha hb
        rcases List.mem_map.mp hb with ⟨j, hj, rfl⟩
        have hlt := hbd _ ha
        omega
    · intro i hi
      rcases List.mem_append.mp hi with hiold | hinew
      · have := hbd i hiold
        show i < t.n_id + (ps.length : ℤ)
        omega
      · rcases List.mem_map.mp hinew with ⟨j, hj, rfl⟩
        have hjlt : j < ps.length := List.mem_range.mp hj
        show t.n_id + (j : ℤ) < t.n_id + (ps.length : ℤ)
        omega

theorem reachable_invariant (s : TrackerState) (h : Reachable s) :
    s.ids.Nodup ∧ ∀ i ∈ s.ids, i < s.n_id := by
  induction h with
  | init => simp
  | step hr hstep ih => exact step_invariant _ _ hstep ih.1 ih.2

/-- C8: in every reachable state of a pipeline instance no two live
tracks share an id, every live id is below the id counter `n_id` (new
tracks take the counter value, which is then incremented), and no step of
the pipeline ever decreases the counter — so ids are never reused within
a session. -/
theorem track_ids_unique (s : TrackerState) (h : Reachable s) :
    s.ids.Nodup ∧ (∀ i ∈ s.ids, i < s.n_id) ∧
      ∀ t u : TrackerState, Step t u → t.n_id ≤ u.n_id :=
  ⟨(reachable_invariant s h).1, (reachable_invariant s h).2, step_n_id_mono⟩

/-- Witness for `track_ids_unique`: the state reached from construction by
one `addPoints` with two new points has distinct ids `[0, 1]` and counter
`2`. -/
theorem track_ids_unique_witness :
    (⟨[0, 1], 2⟩ : TrackerState).ids.Nodup ∧
      (∀ i ∈ (⟨[0, 1], 2⟩ : TrackerState).ids,
        i < (⟨[0, 1], 2⟩ : TrackerState).n_id) ∧
      ∀ t u : TrackerState, Step t u → t.n_id ≤ u.n_id :=
  track_ids_unique ⟨[0, 1], 2⟩ (by
    have h2 := Reachable.step Reachable.init (Step.add ⟨[], 0⟩ [⟨0, 0⟩, ⟨0, 0⟩])
    have he : (⟨[] ++ (List.range ([(⟨0, 0⟩ : Pt2), ⟨0, 0⟩]).length).map
        (fun j : ℕ => (0 : ℤ) + (j : ℤ)),
        (0 : ℤ) + (([(⟨0, 0⟩ : Pt2), ⟨0, 0⟩]).length : ℤ)⟩ :
          TrackerState) = ⟨[0, 1], 2⟩ := by decide
    exact he ▸ h2)

end FeatureTracker
